import Mathlib

/-!
Shallow embedding of `storage/ndb/src/common/portlib/NdbTCP.cpp`.

C strings are modelled as `List Char` holding the characters strictly before
the terminating NUL (so a modelled string never contains NUL itself).
Fixed-capacity caller buffers are `List Char` whose length is the buffer
capacity, and writing one byte is `List.set` (a write past the end of the
buffer is dropped).  The parameter `beyond` models the NUL-terminated byte
string that happens to sit in memory just past an input string's
terminating NUL: `Ndb_split_string_address_port` reads those bytes in one
place (the `strlen(port_colon + 1)` service-length check when `']'` is the
final character of the input), so the behaviour there depends on them.

Addresses are `List Nat` byte vectors (16 bytes for an `in6_addr`).
The external collaborators (`getaddrinfo`, `getnameinfo`, `poll`, `select`,
`getsockopt`) are modelled as explicit inputs carrying their results.
-/

/-- The NUL terminator byte. -/
def nul : Char := Char.ofNat 0

/-- The C string stored in a buffer: its bytes up to the first NUL. -/
def readCStr : List Char → List Char
  | [] => []
  | c :: cs => if c = nul then [] else c :: readCStr cs

/-- libc `strncpy dst src n`: copy bytes of `src` and NUL-pad up to `n`
bytes; nothing is written past the end of `dst`. -/
def strncpyList : List Char → List Char → Nat → List Char
  | [], _, _ => []
  | d :: ds, _, 0 => d :: ds
  | _ :: ds, src, n + 1 => src.headD nul :: strncpyList ds src.tail n

/-- Writing a whole C string (its bytes plus one terminating NUL) into a
buffer, as `getnameinfo` and `memmove` do on success. -/
def writeCStr (dst s : List Char) : List Char :=
  strncpyList dst s (s.length + 1)

/-- libc `strchr` on a NUL-free string: index of the first matching byte. -/
def strchrIdx (p : Char → Bool) : List Char → Option Nat
  | [] => none
  | c :: cs => if p c then some 0 else (strchrIdx p cs).map (· + 1)

/-- One entry of the candidate list returned by `getaddrinfo`: the address
family tag together with the data the source reads from it (`sin_addr`
bytes for IPv4; `sin6_scope_id` and `sin6_addr` bytes for IPv6). -/
inductive AddrInfo where
  | v4 (a b c d : Nat)
  | v6 (scopeId : Nat) (addr : List Nat)
  | otherFamily
deriving DecidableEq

/-- Test `ai_family == AF_INET` from the source's selection loop. -/
def isV4 : AddrInfo → Bool
  | .v4 _ _ _ _ => true
  | _ => false

/-- Test `ai_family == AF_INET6 && sin6_scope_id == 0` from the source's
selection loop. -/
def isV6zero : AddrInfo → Bool
  | .v6 s _ => s == 0
  | _ => false

/-- Model of `Ndb_make_ipv6_from_ipv4`: memset 10 zero bytes, memset 2 `0xff` bytes,
then memcpy the 4 IPv4 address bytes. -/
def Ndb_make_ipv6_from_ipv4 (a b c d : Nat) : List Nat :=
  List.replicate 10 0 ++ List.replicate 2 0xff ++ [a, b, c, d]

/-- The `while (ai_list != nullptr)` loop of `get_preferred_address`, with
`ai_pref` as the accumulator.  An `AF_INET` entry is taken and the loop
breaks; a zero-scope `AF_INET6` entry is recorded only when `ai_pref` is
still null and scanning continues; every other entry is skipped. -/
def gpa_loop : List AddrInfo → Option AddrInfo → Option AddrInfo
  | [], pref => pref
  | AddrInfo.v4 a b c d :: _, _ => some (AddrInfo.v4 a b c d)
  | AddrInfo.v6 s addr :: rest, pref =>
    if pref = none ∧ s = 0 then gpa_loop rest (some (AddrInfo.v6 s addr))
    else gpa_loop rest pref
  | AddrInfo.otherFamily :: rest, pref => gpa_loop rest pref

/-- Model of `get_preferred_address`: run the loop starting from
`ai_pref = nullptr`. -/
def get_preferred_address (l : List AddrInfo) : Option AddrInfo :=
  gpa_loop l none

/-- Model of `get_in6_addr`: `none` models the `-1` return (null candidate or a
family that is neither `AF_INET` nor `AF_INET6`); otherwise the 16 bytes
that are memcpy'd into the destination. -/
def get_in6_addr : Option AddrInfo → Option (List Nat)
  | none => none
  | some (AddrInfo.v4 a b c d) => some (Ndb_make_ipv6_from_ipv4 a b c d)
  | some (AddrInfo.v6 _ addr) => some addr
  | some AddrInfo.otherFamily => none

/-- Model of `Ndb_getInAddr6`.  Here `res` is the outcome of the `getaddrinfo`
collaborator: `none` when it reports failure, otherwise the candidate
list.  Returns the `int` result together with the destination buffer,
which is overwritten only on success. -/
def Ndb_getInAddr6 : Option (List AddrInfo) → List Nat → Int × List Nat
  | none, dst => (-1, dst)
  | some l, dst =>
    match get_in6_addr (get_preferred_address l) with
    | none => (-1, dst)
    | some a => (0, a)

/-- Address family argument of `Ndb_inet_ntop`. -/
inductive AddrFamily where
  | inet
  | inet6
  | otherFamily
deriving DecidableEq

/-- The literal `"::ffff:"` the source compares against. -/
def mappedPfx : List Char := [':', ':', 'f', 'f', 'f', 'f', ':']

/-- The failure tail of `Ndb_inet_ntop`: `strncpy(dst, "null", dst_size)`
followed by `dst[dst_size - 1] = 0`. -/
def write_null_sentinel (dst : List Char) : List Char :=
  (strncpyList dst ['n', 'u', 'l', 'l'] dst.length).set (dst.length - 1) nul

/-- Model of `Ndb_inet_ntop`.  Here `render` is the `getnameinfo` numeric
collaborator: `some s` means it succeeded and wrote the C string `s` (and
its NUL) into `dst`; `none` means it failed leaving `dst` unchanged.  For
`AF_INET6` the source then strips a leading `"::ffff:"` from whatever is
in `dst` (the `strncmp`/`memmove` pair runs before the `ret` check, so it also
runs on the old buffer contents when rendering failed, a write that the
sentinel then fully overwrites).  Any other family, or a rendering
failure, ends in the `"null"` sentinel. -/
def Ndb_inet_ntop (render : AddrFamily → List Nat → Option (List Char))
    (af : AddrFamily) (src : List Nat) (dst : List Char) : List Char :=
  match af with
  | .inet =>
    match render .inet src with
    | some s => writeCStr dst s
    | none => write_null_sentinel dst
  | .inet6 =>
    match render .inet6 src with
    | some s =>
      if (readCStr (writeCStr dst s)).take 7 = mappedPfx then
        writeCStr (writeCStr dst s) ((readCStr (writeCStr dst s)).drop 7)
      else writeCStr dst s
    | none =>
      if (readCStr dst).take 7 = mappedPfx then
        write_null_sentinel (writeCStr dst ((readCStr dst).drop 7))
      else write_null_sentinel dst
  | .otherFamily => write_null_sentinel dst

/-- Decimal digit character, as printf `%d` produces. -/
def decDigit (d : Nat) : Char := Char.ofNat (48 + d % 10)

/-- Little-endian decimal digits of `n`, fuel-structured. -/
def natDigitsAux : Nat → Nat → List Char
  | 0, _ => []
  | fuel + 1, n =>
    if n < 10 then [decDigit n] else decDigit n :: natDigitsAux fuel (n / 10)

/-- The printf `%d` rendering of a (16-bit, hence nonnegative) port. -/
def natDigits (n : Nat) : List Char := (natDigitsAux (n + 1) n).reverse

/-- libc `snprintf`: write at most `bufsize - 1` characters, then a NUL;
with a zero-sized buffer nothing is written. -/
def snprintfList (buf s : List Char) : List Char :=
  if buf.length = 0 then buf else writeCStr buf (s.take (buf.length - 1))

/-- Model of `Ndb_combine_address_port`: `"*:<port>"` for a null host,
`"<host>:<port>"` for a colon-free host, else `"[<host>]:<port>"`. -/
def Ndb_combine_address_port (buf : List Char) (host : Option (List Char))
    (port : Nat) : List Char :=
  match host with
  | none => snprintfList buf ('*' :: ':' :: natDigits port)
  | some h =>
    if strchrIdx (· == ':') h = none then
      snprintfList buf (h ++ ':' :: natDigits port)
    else
      snprintfList buf ('[' :: (h ++ ']' :: ':' :: natDigits port))

/-- The shared tail of `Ndb_split_string_address_port` (no-colon /
several-colons case): the whole input becomes the host if it fits; note
that `serv[0] = '\0'` is written with no check of the service capacity. -/
def split_default (arg host serv : List Char) : Int × List Char × List Char :=
  if arg.length ≥ host.length then (-1, host, serv)
  else
    (0, (strncpyList host arg host.length).set (host.length - 1) nul,
      serv.set 0 nul)

/-- Model of `Ndb_split_string_address_port` over the input string `arg`,
the bytes
`beyond` sitting in memory after its terminator, and the two output
buffers.  Index arithmetic mirrors the source pointers: `jb` is the index
of `']'`, `port_colon` is index `jb + 1`, `copy_bytes = jb - 1`, and the
service-length check `strlen(port_colon + 1)` starts at index `jb + 2` -
which is past the input's NUL (hence reads `beyond`) exactly when
`jb + 1 = arg.length`, i.e. when `']'` is the last character. -/
def Ndb_split_string_address_port (arg beyond host serv : List Char) :
    Int × List Char × List Char :=
  if arg.getD 0 nul = '[' then
    match strchrIdx (· == ']') arg with
    | none => (-1, host, serv)
    | some jb =>
      if arg.getD (jb + 1) nul = ':' ∨ arg.getD (jb + 1) nul = nul then
        if jb - 1 ≥ host.length ∨
            (if jb + 2 ≤ arg.length then arg.length - (jb + 2)
             else beyond.length) ≥ serv.length then
          (-1, host, serv)
        else
          match strchrIdx (· == ':') (arg.drop 1) with
          | none => (-1, host, serv)
          | some fc =>
            if fc + 1 ≥ jb + 1 then (-1, host, serv)
            else
              if arg.getD (jb + 1) nul = ':' then
                (0, (strncpyList host (arg.drop 1) (jb - 1)).set (jb - 1) nul,
                  strncpyList serv (arg.drop (jb + 2)) serv.length)
              else
                (0, (strncpyList host (arg.drop 1) (jb - 1)).set (jb - 1) nul,
                  serv.set 0 nul)
      else (-1, host, serv)
  else
    match strchrIdx (· == ':') arg with
    | some c =>
      if (strchrIdx (· == ':') (arg.drop (c + 1))).isNone then
        if c ≥ host.length ∨ arg.length - (c + 1) ≥ serv.length then
          (-1, host, serv)
        else
          (0, (strncpyList host arg c).set c nul,
            (strncpyList serv (arg.drop (c + 1)) serv.length).set
              (serv.length - 1) nul)
      else split_default arg host serv
    | none => split_default arg host serv

/-- The absolute index, inside the NUL-terminated input (indices
`0 .. arg.length`, index `arg.length` being the terminating NUL), at which
the fit check `strlen(port_colon + 1)` of `Ndb_split_string_address_port`
begins reading when control flow reaches it; `none` when that `strlen` is
never evaluated (`||` short-circuits after the host check fails, and other
paths return before it).  Every other read of the function (`strchr`,
character tests, `strncpy` sources) starts inside the string and stops at
or before the terminator. -/
def split_service_strlen_start (arg : List Char) (hostlen : Nat) :
    Option Nat :=
  if arg.getD 0 nul = '[' then
    match strchrIdx (· == ']') arg with
    | none => none
    | some jb =>
      if arg.getD (jb + 1) nul = ':' ∨ arg.getD (jb + 1) nul = nul then
        if jb - 1 ≥ hostlen then none else some (jb + 2)
      else none
  else
    match strchrIdx (· == ':') arg with
    | some c =>
      if (strchrIdx (· == ':') (arg.drop (c + 1))).isNone then
        if c ≥ hostlen then none else some (c + 1)
      else none
    | none => none

/-- Outcome of the `poll` collaborator in the `HAVE_POLL` branch of
`Ndb_check_socket_hup`: the return value `ret` (which the source stores in
`r` and never examines) and the `POLLHUP` / `POLLERR` bits of `revents`
after the call (initialised to 0 before it). -/
structure PollOutcome where
  ret : Int
  hupEvent : Bool
  errEvent : Bool
deriving DecidableEq

/-- The `HAVE_POLL` branch of `Ndb_check_socket_hup`: 1 iff `revents` has
`POLLHUP` or `POLLERR` set; the `poll` return value is ignored. -/
def Ndb_check_socket_hup_poll (o : PollOutcome) : Int :=
  if o.hupEvent ∨ o.errEvent then 1 else 0

/-- Outcome of the `select`/`getsockopt` collaborators in the fallback
branch of `Ndb_check_socket_hup`: the `select` return value, whether the
error fd-set flags the socket, the `getsockopt(SO_ERROR)` return value,
and the pending error it reports. -/
structure SelectOutcome where
  ret : Int
  errorFdSet : Bool
  sockoptRet : Int
  pendingErr : Int
deriving DecidableEq

/-- The descriptor-set branch of `Ndb_check_socket_hup`: hung up (1) when
selection fails, the error set flags the socket, the pending-error query
fails, or a nonzero pending error is reported; otherwise 0. -/
def Ndb_check_socket_hup_select (o : SelectOutcome) : Int :=
  if o.ret < 0 then 1
  else if o.errorFdSet then 1
  else if o.sockoptRet ≠ 0 then 1
  else if o.pendingErr ≠ 0 then 1
  else 0

theorem strncpyList_length (dst src : List Char) (n : Nat) :
    (strncpyList dst src n).length = dst.length := by
  induction dst generalizing src n with
  | nil => simp [strncpyList]
  | cons d ds ih =>
    cases n with
    | zero => simp [strncpyList]
    | succ m => simp [strncpyList, ih]

theorem strncpyList_eq_append (n : Nat) :
    ∀ (dst src : List Char), n ≤ dst.length →
      strncpyList dst src n =
        src.take n ++ List.replicate (n - src.length) nul ++ dst.drop n := by
  induction n with
  | zero => intro dst src _; cases dst <;> simp [strncpyList]
  | succ m ih =>
    intro dst src h
    cases dst with
    | nil => simp at h
    | cons d ds =>
      cases src with
      | nil =>
        simp only [strncpyList, List.headD, List.tail]
        rw [ih ds [] (by simpa using h)]
        simp [List.replicate_succ]
      | cons a as =>
        simp only [strncpyList, List.headD, List.tail]
        rw [ih ds as (by simpa using h)]
        simp [Nat.succ_sub_succ]

theorem set_append_len (xs : List Char) (y : Char) (ys : List Char) (v : Char) :
    (xs ++ y :: ys).set xs.length v = xs ++ v :: ys := by
  induction xs with
  | nil => simp [List.set]
  | cons x xs ih => simp [List.set, ih]

theorem set_append_right (xs ys : List Char) (i : Nat) (v : Char)
    (h : xs.length ≤ i) :
    (xs ++ ys).set i v = xs ++ ys.set (i - xs.length) v := by
  induction xs generalizing i with
  | nil => simp
  | cons x xs ih =>
    cases i with
    | zero => simp at h
    | succ j =>
      have h2 : xs.length ≤ j := by simpa using h
      calc ((x :: xs) ++ ys).set (j + 1) v
          = x :: (xs ++ ys).set j v := rfl
        _ = x :: (xs ++ ys.set (j - xs.length) v) := by rw [ih j h2]
        _ = (x :: xs) ++ ys.set (j + 1 - (x :: xs).length) v := by
            simp [Nat.succ_sub_succ]

theorem set_replicate_nul (m k : Nat) :
    (List.replicate m nul).set k nul = List.replicate m nul := by
  induction m generalizing k with
  | zero => simp
  | succ m ih =>
    cases k with
    | zero => simp [List.replicate_succ, List.set]
    | succ j => simp [List.replicate_succ, List.set, ih]

theorem readCStr_of_not_mem (s : List Char) (h : nul ∉ s) : readCStr s = s := by
  induction s with
  | nil => rfl
  | cons c cs ih =>
    simp only [List.mem_cons, not_or] at h
    have hc : ¬(c = nul) := fun hh => h.1 hh.symm
    simp [readCStr, hc, ih h.2]

theorem readCStr_append_nul (s t : List Char) (h : nul ∉ s) :
    readCStr (s ++ nul :: t) = s := by
  induction s with
  | nil => simp [readCStr]
  | cons c cs ih =>
    simp only [List.mem_cons, not_or] at h
    have hc : ¬(c = nul) := fun hh => h.1 hh.symm
    simp [readCStr, hc, ih h.2]

theorem readCStr_set_zero (l : List Char) : readCStr (l.set 0 nul) = [] := by
  cases l with
  | nil => rfl
  | cons c cs => simp [List.set, readCStr]

theorem readCStr_strncpy_term (dst src : List Char) (k : Nat)
    (hs : nul ∉ src) (hk : k ≤ src.length) (hd : k < dst.length) :
    readCStr ((strncpyList dst src k).set k nul) = src.take k := by
  rw [strncpyList_eq_append k dst src (Nat.le_of_lt hd)]
  rw [Nat.sub_eq_zero_of_le hk]
  simp only [List.replicate, List.append_nil, List.nil_append]
  obtain ⟨x, xs, hx⟩ : ∃ x xs, dst.drop k = x :: xs := by
    cases hdk : dst.drop k with
    | nil =>
      have := List.length_drop k dst
      rw [hdk] at this
      simp at this
      omega
    | cons x xs => exact ⟨x, xs, rfl⟩
  rw [hx]
  have hlen : (src.take k).length = k := by
    simp [List.length_take, Nat.min_eq_left hk]
  have hset : (src.take k ++ x :: xs).set k nul = src.take k ++ nul :: xs := by
    have h0 := set_append_len (src.take k) x xs nul
    rwa [hlen] at h0
  rw [hset]
  exact readCStr_append_nul _ _ (fun hm => hs (List.take_subset k src hm))

theorem readCStr_strncpy_full (dst src : List Char)
    (hs : nul ∉ src) (hl : src.length < dst.length) :
    readCStr (strncpyList dst src dst.length) = src := by
  rw [strncpyList_eq_append dst.length dst src (Nat.le_refl _)]
  rw [List.drop_length, List.append_nil]
  rw [List.take_of_length_le (Nat.le_of_lt hl)]
  obtain ⟨m, hm⟩ : ∃ m, dst.length - src.length = m + 1 :=
    ⟨dst.length - src.length - 1, by omega⟩
  rw [hm, List.replicate_succ]
  exact readCStr_append_nul _ _ hs

theorem readCStr_strncpy_full_set (dst src : List Char) (j : Nat)
    (hs : nul ∉ src) (hl : src.length < dst.length) (hj : src.length ≤ j) :
    readCStr ((strncpyList dst src dst.length).set j nul) = src := by
  rw [strncpyList_eq_append dst.length dst src (Nat.le_refl _)]
  rw [List.drop_length, List.append_nil]
  rw [List.take_of_length_le (Nat.le_of_lt hl)]
  rw [set_append_right _ _ _ _ hj, set_replicate_nul]
  obtain ⟨m, hm⟩ : ∃ m, dst.length - src.length = m + 1 :=
    ⟨dst.length - src.length - 1, by omega⟩
  rw [hm, List.replicate_succ]
  exact readCStr_append_nul _ _ hs

theorem writeCStr_length (dst s : List Char) :
    (writeCStr dst s).length = dst.length :=
  strncpyList_length dst s (s.length + 1)

theorem readCStr_writeCStr (dst s : List Char) (hs : nul ∉ s)
    (hl : s.length < dst.length) :
    readCStr (writeCStr dst s) = s := by
  unfold writeCStr
  rw [strncpyList_eq_append (s.length + 1) dst s (by omega)]
  rw [List.take_of_length_le (by omega)]
  have h1 : s.length + 1 - s.length = 1 := by omega
  rw [h1]
  simp only [List.replicate, List.append_assoc, List.singleton_append]
  exact readCStr_append_nul _ _ hs

theorem readCStr_sentinel (dst : List Char) (h : 0 < dst.length) :
    readCStr (write_null_sentinel dst) =
      ['n', 'u', 'l', 'l'].take (dst.length - 1) := by
  unfold write_null_sentinel
  rw [strncpyList_eq_append dst.length dst _ (Nat.le_refl _)]
  rw [List.drop_length, List.append_nil]
  by_cases h4 : dst.length ≤ 4
  · have h0 : dst.length - (['n', 'u', 'l', 'l'] : List Char).length = 0 := by
      simp only [List.length_cons, List.length_nil]
      omega
    rw [h0]
    simp only [List.replicate, List.append_nil]
    set n := dst.length with hn
    clear_value n
    clear hn h0
    interval_cases n <;> decide
  · have h5 : (['n', 'u', 'l', 'l'] : List Char).length ≤ dst.length := by
      simp only [List.length_cons, List.length_nil]
      omega
    rw [List.take_of_length_le h5]
    rw [set_append_right _ _ _ _ (by
      simp only [List.length_cons, List.length_nil]
      omega)]
    rw [set_replicate_nul]
    obtain ⟨m, hm⟩ :
        ∃ m, dst.length - (['n', 'u', 'l', 'l'] : List Char).length = m + 1 := by
      refine ⟨dst.length - 5, ?_⟩
      simp only [List.length_cons, List.length_nil]
      omega
    rw [hm, List.replicate_succ]
    rw [readCStr_append_nul _ _ (by decide)]
    rw [List.take_of_length_le (by
      simp only [List.length_cons, List.length_nil]
      omega)]

theorem readCStr_snprintf (buf s : List Char) (hs : nul ∉ s)
    (hl : s.length < buf.length) :
    readCStr (snprintfList buf s) = s := by
  unfold snprintfList
  rw [if_neg (by omega)]
  rw [List.take_of_length_le (by omega)]
  exact readCStr_writeCStr _ _ hs hl

theorem strchrIdx_eq_none (p : Char → Bool) (l : List Char)
    (h : ∀ c ∈ l, p c = false) : strchrIdx p l = none := by
  induction l with
  | nil => rfl
  | cons c cs ih =>
    have hc := h c (by simp)
    simp [strchrIdx, hc, ih (fun x hx => h x (by simp [hx]))]

theorem strchrIdx_append_first (p : Char → Bool) (pre : List Char) (x : Char)
    (post : List Char) (hpre : ∀ c ∈ pre, p c = false) (hx : p x = true) :
    strchrIdx p (pre ++ x :: post) = some pre.length := by
  induction pre with
  | nil => simp [strchrIdx, hx]
  | cons c cs ih =>
    have hc := hpre c (by simp)
    have ih2 := ih (fun y hy => hpre y (by simp [hy]))
    simp [strchrIdx, hc, ih2]

theorem strchrIdx_some_decomp (p : Char → Bool) (l : List Char) (i : Nat)
    (h : strchrIdx p l = some i) :
    ∃ pre x post, l = pre ++ x :: post ∧ pre.length = i ∧ p x = true ∧
      ∀ c ∈ pre, p c = false := by
  induction l generalizing i with
  | nil => simp [strchrIdx] at h
  | cons c cs ih =>
    by_cases hc : p c = true
    · simp only [strchrIdx, hc, if_true, Option.some.injEq] at h
      exact ⟨[], c, cs, by simp, by simp [h], hc, by simp⟩
    · have hc2 : p c = false := by simpa using hc
      simp only [strchrIdx, hc2, Bool.false_eq_true, if_false,
        Option.map_eq_some'] at h
      obtain ⟨j, hj, hji⟩ := h
      obtain ⟨pre, x, post, hl, hlen, hx, hpre⟩ := ih j hj
      refine ⟨c :: pre, x, post, by simp [hl], by simp [hlen, hji], hx, ?_⟩
      intro y hy
      rcases List.mem_cons.mp hy with rfl | hy2
      · exact hc2
      · exact hpre y hy2

theorem decDigit_ne_nul (d : Nat) : decDigit d ≠ nul := by
  unfold decDigit
  have h10 : d % 10 < 10 := Nat.mod_lt _ (by norm_num)
  revert h10
  generalize d % 10 = k
  intro h10
  interval_cases k <;> decide

theorem natDigitsAux_nul_not_mem (fuel n : Nat) :
    nul ∉ natDigitsAux fuel n := by
  induction fuel generalizing n with
  | zero => simp [natDigitsAux]
  | succ m ih =>
    by_cases h : n < 10
    · simp only [natDigitsAux, h, if_true, List.mem_singleton]
      exact fun hh => decDigit_ne_nul n hh.symm
    · simp only [natDigitsAux, h, if_false, List.mem_cons, not_or]
      exact ⟨fun hh => decDigit_ne_nul n hh.symm, ih (n / 10)⟩

theorem natDigits_nul_not_mem (n : Nat) : nul ∉ natDigits n := by
  unfold natDigits
  rw [List.mem_reverse]
  exact natDigitsAux_nul_not_mem _ _

theorem gpa_loop_eq (l : List AddrInfo) (pref : Option AddrInfo) :
    gpa_loop l pref =
      match l.find? isV4 with
      | some a => some a
      | none =>
        match pref with
        | some p => some p
        | none => l.find? isV6zero := by
  induction l generalizing pref with
  | nil => cases pref <;> simp [gpa_loop, List.find?]
  | cons a rest ih =>
    cases a with
    | v4 a b c d => simp [gpa_loop, List.find?, isV4]
    | v6 s addr =>
      by_cases hc : pref = none ∧ s = 0
      · obtain ⟨h1, h2⟩ := hc
        subst h1
        subst h2
        rw [gpa_loop, if_pos ⟨rfl, rfl⟩, ih]
        simp [List.find?, isV4, isV6zero]
      · rw [gpa_loop, if_neg hc, ih]
        rcases hp : pref with _ | p
        · subst hp
          have hs : ¬s = 0 := fun hh => hc ⟨rfl, hh⟩
          have hs2 : (s == 0) = false := by simpa using hs
          simp [List.find?, isV4, isV6zero, hs2]
        · simp [List.find?, isV4]
    | otherFamily =>
      rw [gpa_loop, ih]
      simp [List.find?, isV4, isV6zero]

theorem split_fail_or_succeed (arg beyond host serv : List Char) :
    Ndb_split_string_address_port arg beyond host serv = (-1, host, serv) ∨
      (Ndb_split_string_address_port arg beyond host serv).1 = 0 := by
  unfold Ndb_split_string_address_port split_default
  repeat' split
  all_goals first
    | exact Or.inl rfl
    | exact Or.inr rfl

theorem write_null_sentinel_length (dst : List Char) :
    (write_null_sentinel dst).length = dst.length := by
  unfold write_null_sentinel
  rw [List.length_set, strncpyList_length]

/-- Claim C1: over every candidate list handed back by the external
resolver, `get_preferred_address` returns the first IPv4 entry in list
order whenever one exists (so an IPv4 entry wins even when a zero-scope
IPv6 entry precedes it); with no IPv4 entry it returns the first IPv6
entry whose scope identifier is zero; and when the list has neither,
`Ndb_getInAddr6` fails with -1. -/
theorem claim_C1_resolver_preference :
    (∀ (l : List AddrInfo) (a : AddrInfo),
      l.find? isV4 = some a → get_preferred_address l = some a) ∧
    (∀ l : List AddrInfo,
      l.find? isV4 = none → get_preferred_address l = l.find? isV6zero) ∧
    (∀ (l : List AddrInfo) (dst : List Nat),
      l.find? isV4 = none → l.find? isV6zero = none →
        Ndb_getInAddr6 (some l) dst = (-1, dst)) := by
  refine ⟨?_, ?_, ?_⟩
  · intro l a h
    rw [get_preferred_address, gpa_loop_eq, h]
  · intro l h
    rw [get_preferred_address, gpa_loop_eq, h]
  · intro l dst h1 h2
    have hg : get_preferred_address l = none := by
      rw [get_preferred_address, gpa_loop_eq, h1, h2]
    simp [Ndb_getInAddr6, hg, get_in6_addr]

theorem claim_C1_resolver_preference_witness :
    get_preferred_address
        [AddrInfo.v6 7 [1], AddrInfo.v6 0 [2], AddrInfo.v4 10 0 0 1] =
      some (AddrInfo.v4 10 0 0 1) ∧
    get_preferred_address [AddrInfo.v6 7 [1], AddrInfo.v6 0 [2]] =
      [AddrInfo.v6 7 [1], AddrInfo.v6 0 [2]].find? isV6zero ∧
    Ndb_getInAddr6 (some [AddrInfo.v6 7 [1], AddrInfo.otherFamily])
        (List.replicate 16 0) = (-1, List.replicate 16 0) :=
  ⟨claim_C1_resolver_preference.1 _ _ (by decide),
   claim_C1_resolver_preference.2.1 _ (by decide),
   claim_C1_resolver_preference.2.2 _ _ (by decide) (by decide)⟩

/-- Claim C5: the Internal Address built for an IPv4 candidate (via
`Ndb_make_ipv6_from_ipv4` inside `get_in6_addr`) is exactly the
IPv4-mapped form - ten zero bytes, two 0xff bytes, then the four address
bytes - while an IPv6 candidate's 16 bytes are copied verbatim, and
`Ndb_getInAddr6` delivers the mapped value for an IPv4 candidate. -/
theorem claim_C5_ipv4_mapped_form :
    (∀ a b c d : Nat, Ndb_make_ipv6_from_ipv4 a b c d =
      [0, 0, 0, 0, 0, 0, 0, 0, 0, 0, 0xff, 0xff, a, b, c, d]) ∧
    (∀ a b c d : Nat, get_in6_addr (some (AddrInfo.v4 a b c d)) =
      some [0, 0, 0, 0, 0, 0, 0, 0, 0, 0, 0xff, 0xff, a, b, c, d]) ∧
    (∀ (s : Nat) (addr : List Nat),
      get_in6_addr (some (AddrInfo.v6 s addr)) = some addr) ∧
    (∀ (a b c d : Nat) (dst : List Nat),
      Ndb_getInAddr6 (some [AddrInfo.v4 a b c d]) dst =
        (0, [0, 0, 0, 0, 0, 0, 0, 0, 0, 0, 0xff, 0xff, a, b, c, d])) := by
  refine ⟨?_, ?_, ?_, ?_⟩ <;> intros <;> rfl

/-- Claim C9 counterexample: in the event-polling strategy a failing
`poll` (return -1) that leaves the event flags clear makes the probe
return 0, not the hung-up result 1 the claim requires for a failing
polling primitive. -/
theorem claim_C9_counterexample :
    Ndb_check_socket_hup_poll ⟨-1, false, false⟩ = 0 ∧
      Ndb_check_socket_hup_poll ⟨-1, false, false⟩ ≠ 1 := by
  constructor
  · decide
  · decide

/-- Claim C9 amended: the probe never returns anything but 0 or 1.  In the
event-polling strategy the result is 1 exactly when the hangup or error
flag is set in the returned events, and the `poll` return value is
ignored, so a failing poll that leaves the flags clear yields 0.  In the
descriptor-set strategy a failed selection, the error set flagging the
socket, a failed pending-error query, or a nonzero pending error each
yield 1, and otherwise the result is 0. -/
theorem claim_C9_amended :
    (∀ o : PollOutcome,
      Ndb_check_socket_hup_poll o = 1 ↔ (o.hupEvent ∨ o.errEvent)) ∧
    (∀ r : Int, Ndb_check_socket_hup_poll ⟨r, false, false⟩ = 0) ∧
    (∀ o : PollOutcome,
      Ndb_check_socket_hup_poll o = 0 ∨ Ndb_check_socket_hup_poll o = 1) ∧
    (∀ o : SelectOutcome,
      Ndb_check_socket_hup_select o = 1 ↔
        (o.ret < 0 ∨ o.errorFdSet ∨ o.sockoptRet ≠ 0 ∨ o.pendingErr ≠ 0)) ∧
    (∀ o : SelectOutcome,
      Ndb_check_socket_hup_select o = 0 ∨ Ndb_check_socket_hup_select o = 1) := by
  refine ⟨?_, ?_, ?_, ?_, ?_⟩
  · intro o
    unfold Ndb_check_socket_hup_poll
    split
    · simp_all
    · simp_all
  · intro r
    simp [Ndb_check_socket_hup_poll]
  · intro o
    unfold Ndb_check_socket_hup_poll
    split
    · exact Or.inr rfl
    · exact Or.inl rfl
  · intro o
    unfold Ndb_check_socket_hup_select
    split_ifs <;> simp_all
  · intro o
    unfold Ndb_check_socket_hup_select
    split_ifs <;> simp

/-- Claim C10 (code bug): on the bracketed input `"[::1]"`, whose `']'` is
the final character, the service fit check `strlen(port_colon + 1)` is
reached and begins reading at index 6, strictly past the terminating NUL
that sits at index 5 - an out-of-bounds read, contradicting the claim
that only positions up to and including the terminator are accessed. -/
theorem claim_C10_oob_read_eval :
    split_service_strlen_start "[::1]".toList 10 = some 6 ∧
      "[::1]".toList.length = 5 ∧ 5 + 1 ≤ 6 := by
  refine ⟨by decide, by decide, by omega⟩

/-- Claim C3 (code bug): the input `"[a:b]"` with host capacity 10 and
service capacity 5 satisfies every success condition of the claim (a
closing bracket, a colon strictly inside the brackets, end-of-string
after `']'`, host `"a:b"` and the empty service both fit), yet the
outcome depends on the bytes past the input's terminator: with `"xyzzy"`
sitting there the split fails with -1, while with a NUL there it
succeeds - so success is not determined by the stated conditions. -/
theorem claim_C3_bracket_eos_bug :
    (Ndb_split_string_address_port "[a:b]".toList "xyzzy".toList
        (List.replicate 10 ' ') (List.replicate 5 ' ')).1 = -1 ∧
    (Ndb_split_string_address_port "[a:b]".toList []
        (List.replicate 10 ' ') (List.replicate 5 ' ')).1 = 0 := by
  constructor
  · decide
  · decide

/-- Claim C2 counterexample: for the colon-free input `"myhost"` with host
capacity 7 and a zero-capacity service buffer the extracted service is
the empty string, whose length 0 is not smaller than the capacity 0, yet
the function returns success instead of the failure the claim requires. -/
theorem claim_C2_counterexample :
    (Ndb_split_string_address_port "myhost".toList []
        (List.replicate 7 ' ') []).1 = 0 ∧
    (readCStr (Ndb_split_string_address_port "myhost".toList []
        (List.replicate 7 ' ') []).2.2).length ≥ ([] : List Char).length := by
  constructor
  · decide
  · decide

/-- Claim C7: with positive buffer capacity, a family other than IPv4 and
IPv6, or a failed numeric rendering, makes `Ndb_inet_ntop` write the
sentinel string "null" into the caller's buffer, truncated to what fits
in capacity minus the terminator; and in every case (success included)
the buffer keeps its capacity and holds a NUL-terminated string inside
it. -/
theorem claim_C7_ntop_sentinel_and_termination :
    ∀ (render : AddrFamily → List Nat → Option (List Char)) (af : AddrFamily)
      (src : List Nat) (dst : List Char),
      0 < dst.length →
      (∀ s, render af src = some s → nul ∉ s ∧ s.length < dst.length) →
      ((af = .otherFamily ∨ render af src = none) →
        readCStr (Ndb_inet_ntop render af src dst) =
          ['n', 'u', 'l', 'l'].take (dst.length - 1)) ∧
      ((Ndb_inet_ntop render af src dst).length = dst.length ∧
        (readCStr (Ndb_inet_ntop render af src dst)).length < dst.length) := by
  intro render af src dst hpos hora
  have hsent : readCStr (write_null_sentinel dst) =
      ['n', 'u', 'l', 'l'].take (dst.length - 1) := readCStr_sentinel dst hpos
  have hsentlen : (readCStr (write_null_sentinel dst)).length < dst.length := by
    rw [hsent, List.length_take]
    simp only [List.length_cons, List.length_nil]
    omega
  cases af with
  | otherFamily =>
    refine ⟨fun _ => ?_, ?_, ?_⟩
    · simpa [Ndb_inet_ntop] using hsent
    · simpa [Ndb_inet_ntop] using write_null_sentinel_length dst
    · simpa [Ndb_inet_ntop] using hsentlen
  | inet =>
    cases hr : render .inet src with
    | none =>
      refine ⟨fun _ => ?_, ?_, ?_⟩
      · simpa [Ndb_inet_ntop, hr] using hsent
      · simpa [Ndb_inet_ntop, hr] using write_null_sentinel_length dst
      · simpa [Ndb_inet_ntop, hr] using hsentlen
    | some s =>
      obtain ⟨hnul, hlen⟩ := hora s hr
      have hread : readCStr (writeCStr dst s) = s :=
        readCStr_writeCStr dst s hnul hlen
      refine ⟨fun hcase => ?_, ?_, ?_⟩
      · rcases hcase with hcase | hcase
        · exact absurd hcase (by simp)
        · exact absurd hcase (by simp)
      · simpa [Ndb_inet_ntop, hr] using writeCStr_length dst s
      · simp only [Ndb_inet_ntop, hr]
        rw [hread]
        omega
  | inet6 =>
    cases hr : render .inet6 src with
    | none =>
      have hlen1 : (writeCStr dst ((readCStr dst).drop 7)).length = dst.length :=
        writeCStr_length _ _
      have hpos1 : 0 < (writeCStr dst ((readCStr dst).drop 7)).length := by
        rw [hlen1]
        exact hpos
      have hsent1 := readCStr_sentinel _ hpos1
      rw [hlen1] at hsent1
      have hsentlen1 :
          (readCStr (write_null_sentinel
            (writeCStr dst ((readCStr dst).drop 7)))).length < dst.length := by
        rw [hsent1, List.length_take]
        simp only [List.length_cons, List.length_nil]
        omega
      refine ⟨fun _ => ?_, ?_, ?_⟩
      · by_cases hc : (readCStr dst).take 7 = mappedPfx
        · simpa [Ndb_inet_ntop, hr, hc] using hsent1
        · simpa [Ndb_inet_ntop, hr, hc] using hsent
      · by_cases hc : (readCStr dst).take 7 = mappedPfx
        · simp only [Ndb_inet_ntop, hr, hc, if_true]
          rw [write_null_sentinel_length, hlen1]
        · simpa [Ndb_inet_ntop, hr, hc] using write_null_sentinel_length dst
      · by_cases hc : (readCStr dst).take 7 = mappedPfx
        · simpa [Ndb_inet_ntop, hr, hc] using hsentlen1
        · simpa [Ndb_inet_ntop, hr, hc] using hsentlen
    | some s =>
      obtain ⟨hnul, hlen⟩ := hora s hr
      have hread : readCStr (writeCStr dst s) = s :=
        readCStr_writeCStr dst s hnul hlen
      have hnul7 : nul ∉ s.drop 7 := fun hm => hnul (List.drop_subset 7 s hm)
      have hlen7 : (s.drop 7).length < (writeCStr dst s).length := by
        rw [writeCStr_length, List.length_drop]
        omega
      have hread7 : readCStr (writeCStr (writeCStr dst s) (s.drop 7)) =
          s.drop 7 := readCStr_writeCStr _ _ hnul7 hlen7
      refine ⟨fun hcase => ?_, ?_, ?_⟩
      · rcases hcase with hcase | hcase
        · exact absurd hcase (by simp)
        · exact absurd hcase (by simp)
      · by_cases hc : s.take 7 = mappedPfx
        · simp only [Ndb_inet_ntop, hr, hread, hc, if_true]
          rw [writeCStr_length, writeCStr_length]
        · simpa [Ndb_inet_ntop, hr, hread, hc] using writeCStr_length dst s
      · by_cases hc : s.take 7 = mappedPfx
        · simp only [Ndb_inet_ntop, hr, hread, hc, if_true]
          rw [hread7, List.length_drop]
          omega
        · simp only [Ndb_inet_ntop, hr, hread, hc, if_false]
          omega

theorem claim_C7_ntop_sentinel_and_termination_witness :
    readCStr (Ndb_inet_ntop (fun _ _ => none) .otherFamily []
        (List.replicate 3 'x')) =
      ['n', 'u', 'l', 'l'].take 2 ∧
    (Ndb_inet_ntop (fun _ _ => none) .otherFamily []
        (List.replicate 3 'x')).length = 3 ∧
    (readCStr (Ndb_inet_ntop (fun _ _ => none) .otherFamily []
        (List.replicate 3 'x'))).length < 3 := by
  have h := claim_C7_ntop_sentinel_and_termination (fun _ _ => none)
    .otherFamily [] (List.replicate 3 'x') (by decide)
    (fun s hs => by simp at hs)
  refine ⟨?_, ?_, ?_⟩
  · have := h.1 (Or.inl rfl)
    simpa using this
  · simpa using h.2.1
  · simpa using h.2.2

/-- Claim C6: when the numeric rendering of an IPv6 input succeeds and the
rendered text starts with the literal `"::ffff:"`, `Ndb_inet_ntop`
returns that text with the 7-character literal removed; in consequence,
resolving `"127.0.0.1"` (an IPv4 candidate, stored IPv4-mapped) and
formatting the stored address as IPv6 yields exactly `"127.0.0.1"`. -/
theorem claim_C6_mapped_strip :
    (∀ (render : AddrFamily → List Nat → Option (List Char))
        (src : List Nat) (dst s : List Char),
      render .inet6 src = some s → nul ∉ s → s.length < dst.length →
      s.take 7 = mappedPfx →
      readCStr (Ndb_inet_ntop render .inet6 src dst) = s.drop 7) ∧
    (∀ (render : AddrFamily → List Nat → Option (List Char))
        (dst : List Char) (d0 : List Nat),
      render .inet6 (Ndb_getInAddr6 (some [AddrInfo.v4 127 0 0 1]) d0).2 =
        some "::ffff:127.0.0.1".toList →
      16 < dst.length →
      (Ndb_getInAddr6 (some [AddrInfo.v4 127 0 0 1]) d0).1 = 0 ∧
      readCStr (Ndb_inet_ntop render .inet6
          (Ndb_getInAddr6 (some [AddrInfo.v4 127 0 0 1]) d0).2 dst) =
        "127.0.0.1".toList) := by
  have key : ∀ (render : AddrFamily → List Nat → Option (List Char))
      (src : List Nat) (dst s : List Char),
      render .inet6 src = some s → nul ∉ s → s.length < dst.length →
      s.take 7 = mappedPfx →
      readCStr (Ndb_inet_ntop render .inet6 src dst) = s.drop 7 := by
    intro render src dst s hr hnul hlen htake
    have hread : readCStr (writeCStr dst s) = s :=
      readCStr_writeCStr dst s hnul hlen
    have hnul7 : nul ∉ s.drop 7 := fun hm => hnul (List.drop_subset 7 s hm)
    have hlen7 : (s.drop 7).length < (writeCStr dst s).length := by
      rw [writeCStr_length, List.length_drop]
      omega
    simp only [Ndb_inet_ntop, hr, hread, htake, if_true]
    exact readCStr_writeCStr _ _ hnul7 hlen7
  refine ⟨key, ?_⟩
  intro render dst d0 hr hlen
  have hslen : ("::ffff:127.0.0.1".toList).length = 16 := by decide
  refine ⟨rfl, ?_⟩
  have h2 := key render _ dst "::ffff:127.0.0.1".toList hr (by decide)
    (by omega) (by decide)
  rw [h2]
  decide

theorem claim_C6_mapped_strip_witness :
    readCStr (Ndb_inet_ntop (fun _ _ => some "::ffff:127.0.0.1".toList)
        .inet6 [0, 0, 0, 0, 0, 0, 0, 0, 0, 0, 0xff, 0xff, 127, 0, 0, 1]
        (List.replicate 20 'x')) =
      "::ffff:127.0.0.1".toList.drop 7 ∧
    (Ndb_getInAddr6 (some [AddrInfo.v4 127 0 0 1]) (List.replicate 16 0)).1
        = 0 ∧
    readCStr (Ndb_inet_ntop (fun _ _ => some "::ffff:127.0.0.1".toList)
        .inet6 (Ndb_getInAddr6 (some [AddrInfo.v4 127 0 0 1])
          (List.replicate 16 0)).2 (List.replicate 20 'x')) =
      "127.0.0.1".toList := by
  refine ⟨?_, ?_⟩
  · exact claim_C6_mapped_strip.1 (fun _ _ => some "::ffff:127.0.0.1".toList)
      _ (List.replicate 20 'x') "::ffff:127.0.0.1".toList rfl (by decide)
      (by decide) (by decide)
  · exact claim_C6_mapped_strip.2 (fun _ _ => some "::ffff:127.0.0.1".toList)
      (List.replicate 20 'x') (List.replicate 16 0) rfl (by decide)

theorem strchrIdx_ne_none_of_mem (p : Char → Bool) (l : List Char) (x : Char)
    (hx : x ∈ l) (hp : p x = true) : strchrIdx p l ≠ none := by
  induction l with
  | nil => simp at hx
  | cons c cs ih =>
    by_cases hc : p c = true
    · simp [strchrIdx, hc]
    · have hc2 : p c = false := by simpa using hc
      rcases List.mem_cons.mp hx with rfl | hx2
      · rw [hp] at hc2
        simp at hc2
      · simp only [strchrIdx, hc2, Bool.false_eq_true, if_false, ne_eq,
          Option.map_eq_none']
        exact ih hx2

/-- Claim C8: `Ndb_combine_address_port` renders `"*:<port>"` for an
absent host, `"<host>:<port>"` for a colon-free host and
`"[<host>]:<port>"` for a host containing a colon, always returning the
buffer (given capacity for the rendered text); and composing it with the
splitter round-trips: splitting `"host:1186"` or `"[::1]:1186"` and
combining the extracted host with the numeric value 1186 of the extracted
service reproduces the input exactly, while for `"host"` and
`"[fe80::1]"` the host component is preserved through the split. -/
theorem claim_C8_combine_roundtrip :
    (∀ (buf : List Char) (port : Nat),
      ('*' :: ':' :: natDigits port).length < buf.length →
      readCStr (Ndb_combine_address_port buf none port) =
        '*' :: ':' :: natDigits port) ∧
    (∀ (buf h : List Char) (port : Nat), nul ∉ h → ':' ∉ h →
      (h ++ ':' :: natDigits port).length < buf.length →
      readCStr (Ndb_combine_address_port buf (some h) port) =
        h ++ ':' :: natDigits port) ∧
    (∀ (buf h : List Char) (port : Nat), nul ∉ h → ':' ∈ h →
      ('[' :: (h ++ ']' :: ':' :: natDigits port)).length < buf.length →
      readCStr (Ndb_combine_address_port buf (some h) port) =
        '[' :: (h ++ ']' :: ':' :: natDigits port)) ∧
    (readCStr (Ndb_split_string_address_port "host:1186".toList []
        (List.replicate 16 'x') (List.replicate 16 'x')).2.2 =
      natDigits 1186 ∧
     readCStr (Ndb_combine_address_port (List.replicate 16 'x')
        (some (readCStr (Ndb_split_string_address_port "host:1186".toList []
          (List.replicate 16 'x') (List.replicate 16 'x')).2.1)) 1186) =
      "host:1186".toList) ∧
    (readCStr (Ndb_split_string_address_port "[::1]:1186".toList []
        (List.replicate 16 'x') (List.replicate 16 'x')).2.2 =
      natDigits 1186 ∧
     readCStr (Ndb_combine_address_port (List.replicate 16 'x')
        (some (readCStr (Ndb_split_string_address_port "[::1]:1186".toList []
          (List.replicate 16 'x') (List.replicate 16 'x')).2.1)) 1186) =
      "[::1]:1186".toList) ∧
    ((Ndb_split_string_address_port "host".toList []
        (List.replicate 16 'x') (List.replicate 16 'x')).1 = 0 ∧
     readCStr (Ndb_split_string_address_port "host".toList []
        (List.replicate 16 'x') (List.replicate 16 'x')).2.1 =
      "host".toList) ∧
    ((Ndb_split_string_address_port "[fe80::1]".toList []
        (List.replicate 16 'x') (List.replicate 16 'x')).1 = 0 ∧
     readCStr (Ndb_split_string_address_port "[fe80::1]".toList []
        (List.replicate 16 'x') (List.replicate 16 'x')).2.1 =
      "fe80::1".toList) := by
  refine ⟨?_, ?_, ?_, by constructor <;> decide, by constructor <;> decide,
    by constructor <;> decide, by constructor <;> decide⟩
  · intro buf port hfit
    have hnul : nul ∉ '*' :: ':' :: natDigits port := by
      simp only [List.mem_cons, not_or]
      exact ⟨by decide, by decide, natDigits_nul_not_mem port⟩
    exact readCStr_snprintf _ _ hnul hfit
  · intro buf h port hnul hcolon hfit
    have hcond : strchrIdx (· == ':') h = none :=
      strchrIdx_eq_none _ _ (fun c hc => by
        have hne : c ≠ ':' := fun hh => hcolon (hh ▸ hc)
        simpa using hne)
    have hnul2 : nul ∉ h ++ ':' :: natDigits port := by
      simp only [List.mem_append, List.mem_cons, not_or]
      exact ⟨hnul, by decide, natDigits_nul_not_mem port⟩
    have hred : Ndb_combine_address_port buf (some h) port =
        snprintfList buf (h ++ ':' :: natDigits port) := by
      simp only [Ndb_combine_address_port]
      rw [if_pos hcond]
    rw [hred]
    exact readCStr_snprintf _ _ hnul2 hfit
  · intro buf h port hnul hcolon hfit
    have hcond : strchrIdx (· == ':') h ≠ none :=
      strchrIdx_ne_none_of_mem _ _ ':' hcolon (by simp)
    have hnul2 : nul ∉ '[' :: (h ++ ']' :: ':' :: natDigits port) := by
      simp only [List.mem_cons, List.mem_append, not_or]
      exact ⟨by decide, hnul, by decide, by decide, natDigits_nul_not_mem port⟩
    have hred : Ndb_combine_address_port buf (some h) port =
        snprintfList buf ('[' :: (h ++ ']' :: ':' :: natDigits port)) := by
      simp only [Ndb_combine_address_port]
      rw [if_neg hcond]
    rw [hred]
    exact readCStr_snprintf _ _ hnul2 hfit

theorem claim_C8_combine_roundtrip_witness :
    readCStr (Ndb_combine_address_port (List.replicate 16 'x') none 7) =
      '*' :: ':' :: natDigits 7 ∧
    readCStr (Ndb_combine_address_port (List.replicate 16 'x')
        (some "host".toList) 1186) = "host".toList ++ ':' :: natDigits 1186 ∧
    readCStr (Ndb_combine_address_port (List.replicate 16 'x')
        (some "::1".toList) 1186) =
      '[' :: ("::1".toList ++ ']' :: ':' :: natDigits 1186) :=
  ⟨claim_C8_combine_roundtrip.1 _ 7 (by decide),
   claim_C8_combine_roundtrip.2.1 _ _ 1186 (by decide) (by decide) (by decide),
   claim_C8_combine_roundtrip.2.2.1 _ _ 1186 (by decide) (by decide)
     (by decide)⟩

theorem getD_of_length_le (l : List Char) (i : Nat) (d : Char)
    (h : l.length ≤ i) : l.getD i d = d := by
  induction l generalizing i with
  | nil => cases i <;> rfl
  | cons x xs ih =>
    cases i with
    | zero => simp at h
    | succ j =>
      simp only [List.getD_cons_succ]
      exact ih j (by simpa using h)

theorem lt_length_of_getD_ne (l : List Char) (i : Nat) (d : Char)
    (h : l.getD i d ≠ d) : i < l.length := by
  by_contra hc
  exact h (getD_of_length_le l i d (by omega))

theorem strchrIdx_none_forall (p : Char → Bool) (l : List Char)
    (h : strchrIdx p l = none) : ∀ c ∈ l, p c = false := by
  induction l with
  | nil => simp
  | cons c cs ih =>
    by_cases hc : p c = true
    · simp [strchrIdx, hc] at h
    · have hc2 : p c = false := by simpa using hc
      simp only [strchrIdx, hc2, Bool.false_eq_true, if_false,
        Option.map_eq_none'] at h
      intro y hy
      rcases List.mem_cons.mp hy with rfl | hy2
      · exact hc2
      · exact ih h y hy2

theorem strchrIdx_some_lt (p : Char → Bool) (l : List Char) (i : Nat)
    (h : strchrIdx p l = some i) : i < l.length := by
  obtain ⟨pre, x, post, hl, hlen, _, _⟩ := strchrIdx_some_decomp p l i h
  subst hl
  simp only [List.length_append, List.length_cons]
  omega

theorem drop_append_cons (pre : List Char) (x : Char) (post : List Char) :
    (pre ++ x :: post).drop (pre.length + 1) = post := by
  have h : pre ++ x :: post = (pre ++ [x]) ++ post := by simp
  rw [h]
  have hl : (pre ++ [x]).length = pre.length + 1 := by simp
  rw [← hl]
  exact List.drop_left _ _

theorem count_colon_one (arg : List Char) (c : Nat)
    (h1 : strchrIdx (· == ':') arg = some c)
    (h2 : strchrIdx (· == ':') (arg.drop (c + 1)) = none) :
    arg.count ':' = 1 := by
  obtain ⟨pre, x, post, hl, hlen, hx, hpre⟩ := strchrIdx_some_decomp _ _ _ h1
  have hx2 : x = ':' := by simpa using hx
  subst hx2
  subst hl
  rw [← hlen, drop_append_cons] at h2
  have hpost := strchrIdx_none_forall _ _ h2
  have hpre0 : pre.count ':' = 0 := by
    rw [List.count_eq_zero]
    intro hm
    have hb := hpre ':' hm
    simp at hb
  have hpost0 : post.count ':' = 0 := by
    rw [List.count_eq_zero]
    intro hm
    have hb := hpost ':' hm
    simp at hb
  rw [List.count_append, List.count_cons_self, hpre0, hpost0]

theorem split_eval_bracket_none (arg beyond host serv : List Char)
    (hbr : arg.getD 0 nul = '[')
    (hjb : strchrIdx (· == ']') arg = none) :
    Ndb_split_string_address_port arg beyond host serv = (-1, host, serv) := by
  unfold Ndb_split_string_address_port
  rw [if_pos hbr, hjb]

theorem split_eval_bracket_some (arg beyond host serv : List Char) (jb : Nat)
    (hbr : arg.getD 0 nul = '[')
    (hjb : strchrIdx (· == ']') arg = some jb) :
    Ndb_split_string_address_port arg beyond host serv =
      (if arg.getD (jb + 1) nul = ':' ∨ arg.getD (jb + 1) nul = nul then
        if jb - 1 ≥ host.length ∨
            (if jb + 2 ≤ arg.length then arg.length - (jb + 2)
             else beyond.length) ≥ serv.length then
          (-1, host, serv)
        else
          match strchrIdx (· == ':') (arg.drop 1) with
          | none => (-1, host, serv)
          | some fc =>
            if fc + 1 ≥ jb + 1 then (-1, host, serv)
            else
              if arg.getD (jb + 1) nul = ':' then
                (0, (strncpyList host (arg.drop 1) (jb - 1)).set (jb - 1) nul,
                  strncpyList serv (arg.drop (jb + 2)) serv.length)
              else
                (0, (strncpyList host (arg.drop 1) (jb - 1)).set (jb - 1) nul,
                  serv.set 0 nul)
      else (-1, host, serv)) := by
  unfold Ndb_split_string_address_port
  rw [if_pos hbr, hjb]

theorem split_eval_nonbracket_none (arg beyond host serv : List Char)
    (hbr : ¬arg.getD 0 nul = '[')
    (hc : strchrIdx (· == ':') arg = none) :
    Ndb_split_string_address_port arg beyond host serv =
      split_default arg host serv := by
  unfold Ndb_split_string_address_port
  rw [if_neg hbr, hc]

theorem split_eval_nonbracket_some (arg beyond host serv : List Char) (c : Nat)
    (hbr : ¬arg.getD 0 nul = '[')
    (hc : strchrIdx (· == ':') arg = some c) :
    Ndb_split_string_address_port arg beyond host serv =
      (if (strchrIdx (· == ':') (arg.drop (c + 1))).isNone then
        if c ≥ host.length ∨ arg.length - (c + 1) ≥ serv.length then
          (-1, host, serv)
        else
          (0, (strncpyList host arg c).set c nul,
            (strncpyList serv (arg.drop (c + 1)) serv.length).set
              (serv.length - 1) nul)
      else split_default arg host serv) := by
  unfold Ndb_split_string_address_port
  rw [if_neg hbr, hc]

/-- Claim C4: a non-bracketed input with exactly one colon is split into
the text before the colon (host) and the text after it (service); with
no colon at all, or with two or more colons, the entire input becomes the
host and the service is empty - in each case provided the pieces fit the
caller's buffers. -/
theorem claim_C4_split_nonbracket :
    (∀ pre post beyond host serv : List Char,
      nul ∉ pre → nul ∉ post → ':' ∉ pre → ':' ∉ post →
      (pre ++ ':' :: post).getD 0 nul ≠ '[' →
      pre.length < host.length → post.length < serv.length →
      (Ndb_split_string_address_port (pre ++ ':' :: post) beyond host
          serv).1 = 0 ∧
      readCStr (Ndb_split_string_address_port (pre ++ ':' :: post) beyond
          host serv).2.1 = pre ∧
      readCStr (Ndb_split_string_address_port (pre ++ ':' :: post) beyond
          host serv).2.2 = post) ∧
    (∀ arg beyond host serv : List Char,
      nul ∉ arg → arg.getD 0 nul ≠ '[' → arg.count ':' ≠ 1 →
      arg.length < host.length → 0 < serv.length →
      (Ndb_split_string_address_port arg beyond host serv).1 = 0 ∧
      readCStr (Ndb_split_string_address_port arg beyond host serv).2.1 =
        arg ∧
      readCStr (Ndb_split_string_address_port arg beyond host serv).2.2 =
        []) := by
  constructor
  · intro pre post beyond host serv hnp hnq hcp hcq hbr hfh hfs
    have hfind : strchrIdx (· == ':') (pre ++ ':' :: post) = some pre.length :=
      strchrIdx_append_first _ pre ':' post
        (fun c hc => by
          have hne : c ≠ ':' := fun hh => hcp (hh ▸ hc)
          simpa using hne)
        (by simp)
    have hsecond : strchrIdx (· == ':')
        ((pre ++ ':' :: post).drop (pre.length + 1)) = none := by
      rw [drop_append_cons]
      exact strchrIdx_eq_none _ _ (fun c hc => by
        have hne : c ≠ ':' := fun hh => hcq (hh ▸ hc)
        simpa using hne)
    have hlen : (pre ++ ':' :: post).length = pre.length + 1 + post.length := by
      simp only [List.length_append, List.length_cons]
      omega
    have hfit : ¬(pre.length ≥ host.length ∨
        (pre ++ ':' :: post).length - (pre.length + 1) ≥ serv.length) := by
      rw [hlen]
      omega
    have hnall : nul ∉ pre ++ ':' :: post := by
      simp only [List.mem_append, List.mem_cons, not_or]
      exact ⟨hnp, by decide, hnq⟩
    have hred : Ndb_split_string_address_port (pre ++ ':' :: post) beyond
        host serv =
        (0, (strncpyList host (pre ++ ':' :: post) pre.length).set
            pre.length nul,
          (strncpyList serv ((pre ++ ':' :: post).drop (pre.length + 1))
            serv.length).set (serv.length - 1) nul) := by
      rw [split_eval_nonbracket_some _ beyond host serv pre.length hbr hfind]
      rw [hsecond]
      simp only [Option.isNone_none, if_true]
      rw [if_neg hfit]
    rw [hred]
    refine ⟨rfl, ?_, ?_⟩
    · have hterm := readCStr_strncpy_term host (pre ++ ':' :: post)
        pre.length hnall (by rw [hlen]; omega) hfh
      rw [hterm]
      exact List.take_left pre (':' :: post)
    · rw [drop_append_cons]
      exact readCStr_strncpy_full_set serv post (serv.length - 1) hnq hfs
        (by omega)
  · intro arg beyond host serv hnul hbr hcount hfh hfs
    have hdef : split_default arg host serv =
        (0, (strncpyList host arg host.length).set (host.length - 1) nul,
          serv.set 0 nul) := by
      unfold split_default
      rw [if_neg (by omega)]
    have hout : readCStr ((strncpyList host arg host.length).set
        (host.length - 1) nul) = arg :=
      readCStr_strncpy_full_set host arg (host.length - 1) hnul hfh (by omega)
    cases hfind : strchrIdx (· == ':') arg with
    | none =>
      rw [split_eval_nonbracket_none arg beyond host serv hbr hfind, hdef]
      exact ⟨rfl, hout, readCStr_set_zero serv⟩
    | some c =>
      cases hsecond : strchrIdx (· == ':') (arg.drop (c + 1)) with
      | none => exact absurd (count_colon_one arg c hfind hsecond) hcount
      | some fc =>
        rw [split_eval_nonbracket_some arg beyond host serv c hbr hfind]
        rw [hsecond]
        simp only [Option.isNone_some, Bool.false_eq_true, if_false]
        rw [hdef]
        exact ⟨rfl, hout, readCStr_set_zero serv⟩

theorem claim_C4_split_nonbracket_witness :
    ((Ndb_split_string_address_port "127.0.0.1:1186".toList []
        (List.replicate 16 'x') (List.replicate 16 'x')).1 = 0 ∧
      readCStr (Ndb_split_string_address_port "127.0.0.1:1186".toList []
        (List.replicate 16 'x') (List.replicate 16 'x')).2.1 =
        "127.0.0.1".toList ∧
      readCStr (Ndb_split_string_address_port "127.0.0.1:1186".toList []
        (List.replicate 16 'x') (List.replicate 16 'x')).2.2 =
        "1186".toList) ∧
    ((Ndb_split_string_address_port "myhost".toList []
        (List.replicate 16 'x') (List.replicate 16 'x')).1 = 0 ∧
      readCStr (Ndb_split_string_address_port "myhost".toList []
        (List.replicate 16 'x') (List.replicate 16 'x')).2.1 =
        "myhost".toList ∧
      readCStr (Ndb_split_string_address_port "myhost".toList []
        (List.replicate 16 'x') (List.replicate 16 'x')).2.2 = []) :=
  ⟨claim_C4_split_nonbracket.1 "127.0.0.1".toList "1186".toList []
      (List.replicate 16 'x') (List.replicate 16 'x')
      (by decide) (by decide) (by decide) (by decide) (by decide) (by decide)
      (by decide),
   claim_C4_split_nonbracket.2 "myhost".toList [] (List.replicate 16 'x')
      (List.replicate 16 'x') (by decide) (by decide) (by decide) (by decide)
      (by decide)⟩

/-- Claim C2 amended: whenever `Ndb_split_string_address_port` fails, the
host and service buffers are left exactly as they were, and whenever
`Ndb_getInAddr6` fails the destination is left unmodified; and on a
successful split the extracted host always fits its buffer
(length < hostlen), while the extracted service fits its buffer whenever
the service capacity is at least 1 - the no-colon branch writes the empty
service without any capacity check, so with servlen = 0 the call can
succeed even though the empty service does not fit, which is the one
deviation from the claim. -/
theorem claim_C2_amended_no_partial_output :
    (∀ arg beyond host serv : List Char,
      (Ndb_split_string_address_port arg beyond host serv).1 = -1 →
      (Ndb_split_string_address_port arg beyond host serv).2.1 = host ∧
      (Ndb_split_string_address_port arg beyond host serv).2.2 = serv) ∧
    (∀ arg beyond host serv : List Char, nul ∉ arg →
      (Ndb_split_string_address_port arg beyond host serv).1 = 0 →
      (readCStr (Ndb_split_string_address_port arg beyond host
          serv).2.1).length < host.length ∧
      (1 ≤ serv.length →
        (readCStr (Ndb_split_string_address_port arg beyond host
            serv).2.2).length < serv.length)) ∧
    (∀ (res : Option (List AddrInfo)) (dst : List Nat),
      (Ndb_getInAddr6 res dst).1 = -1 → (Ndb_getInAddr6 res dst).2 = dst) := by
  refine ⟨?_, ?_, ?_⟩
  · intro arg beyond host serv h
    rcases split_fail_or_succeed arg beyond host serv with heq | hzero
    · rw [heq]
      exact ⟨rfl, rfl⟩
    · rw [h] at hzero
      exact absurd hzero (by decide)
  · intro arg beyond host serv hnul hr
    by_cases hbr : arg.getD 0 nul = '['
    · cases hjb : strchrIdx (· == ']') arg with
      | none =>
        rw [split_eval_bracket_none arg beyond host serv hbr hjb] at hr
        simp at hr
      | some jb =>
        have hjblt : jb < arg.length := strchrIdx_some_lt _ _ _ hjb
        have hnd : nul ∉ arg.drop 1 := fun hm => hnul (List.drop_subset 1 arg hm)
        rw [split_eval_bracket_some arg beyond host serv jb hbr hjb] at hr ⊢
        by_cases hpc : arg.getD (jb + 1) nul = ':' ∨ arg.getD (jb + 1) nul = nul
        case neg =>
          rw [if_neg hpc] at hr
          simp at hr
        case pos =>
        rw [if_pos hpc] at hr ⊢
        by_cases hfit : jb - 1 ≥ host.length ∨
            (if jb + 2 ≤ arg.length then arg.length - (jb + 2)
             else beyond.length) ≥ serv.length
        case pos =>
          rw [if_pos hfit] at hr
          simp at hr
        case neg =>
        rw [if_neg hfit] at hr ⊢
        push_neg at hfit
        have hhost : (readCStr ((strncpyList host (arg.drop 1) (jb - 1)).set
            (jb - 1) nul)).length < host.length := by
          rw [readCStr_strncpy_term host (arg.drop 1) (jb - 1) hnd
            (by rw [List.length_drop]; omega) hfit.1]
          rw [List.length_take, List.length_drop]
          omega
        cases hfc : strchrIdx (· == ':') (arg.drop 1) with
        | none =>
          simp only [hfc] at hr
          simp at hr
        | some fc =>
          simp only [hfc] at hr ⊢
          by_cases hlt : fc + 1 ≥ jb + 1
          case pos =>
            rw [if_pos hlt] at hr
            simp at hr
          case neg =>
          rw [if_neg hlt] at hr ⊢
          by_cases hcol : arg.getD (jb + 1) nul = ':'
          case pos =>
            rw [if_pos hcol] at hr ⊢
            have hj2 : jb + 1 < arg.length :=
              lt_length_of_getD_ne arg (jb + 1) nul (by rw [hcol]; decide)
            have hsvc : arg.length - (jb + 2) < serv.length := by
              have h2 := hfit.2
              rw [if_pos (by omega)] at h2
              exact h2
            refine ⟨hhost, fun _ => ?_⟩
            rw [readCStr_strncpy_full serv (arg.drop (jb + 2))
              (fun hm => hnul (List.drop_subset _ _ hm))
              (by rw [List.length_drop]; omega)]
            rw [List.length_drop]
            omega
          case neg =>
            rw [if_neg hcol] at hr ⊢
            refine ⟨hhost, fun h1 => ?_⟩
            rw [readCStr_set_zero]
            simpa using h1
    · cases hfind : strchrIdx (· == ':') arg with
      | none =>
        rw [split_eval_nonbracket_none arg beyond host serv hbr hfind] at hr ⊢
        unfold split_default at hr ⊢
        by_cases hfit : arg.length ≥ host.length
        · rw [if_pos hfit] at hr
          simp at hr
        · rw [if_neg hfit] at hr ⊢
          constructor
          · rw [readCStr_strncpy_full_set host arg (host.length - 1) hnul
              (by omega) (by omega)]
            omega
          · intro h1
            rw [readCStr_set_zero]
            simpa using h1
      | some c =>
        have hclt : c < arg.length := strchrIdx_some_lt _ _ _ hfind
        rw [split_eval_nonbracket_some arg beyond host serv c hbr hfind] at hr ⊢
        cases hsec : strchrIdx (· == ':') (arg.drop (c + 1)) with
        | some fc =>
          simp only [hsec, Option.isNone_some, Bool.false_eq_true,
            if_false] at hr ⊢
          unfold split_default at hr ⊢
          by_cases hfit : arg.length ≥ host.length
          · rw [if_pos hfit] at hr
            simp at hr
          · rw [if_neg hfit] at hr ⊢
            constructor
            · rw [readCStr_strncpy_full_set host arg (host.length - 1) hnul
                (by omega) (by omega)]
              omega
            · intro h1
              rw [readCStr_set_zero]
              simpa using h1
        | none =>
          simp only [hsec, Option.isNone_none, eq_self_iff_true,
            if_true] at hr ⊢
          by_cases hfit : c ≥ host.length ∨ arg.length - (c + 1) ≥ serv.length
          · rw [if_pos hfit] at hr
            simp at hr
          · rw [if_neg hfit] at hr ⊢
            push_neg at hfit
            constructor
            · rw [readCStr_strncpy_term host arg c hnul (le_of_lt hclt)
                hfit.1]
              rw [List.length_take, Nat.min_eq_left (le_of_lt hclt)]
              exact hfit.1
            · intro h1
              rw [readCStr_strncpy_full_set serv (arg.drop (c + 1))
                (serv.length - 1)
                (fun hm => hnul (List.drop_subset _ _ hm))
                (by rw [List.length_drop]; omega)
                (by rw [List.length_drop]; omega)]
              rw [List.length_drop]
              omega
  · intro res dst h
    cases res with
    | none => rfl
    | some l =>
      cases hg : get_in6_addr (get_preferred_address l) with
      | none => simp [Ndb_getInAddr6, hg]
      | some a =>
        exfalso
        have h0 : (Ndb_getInAddr6 (some l) dst).1 = 0 := by
          simp [Ndb_getInAddr6, hg]
        rw [h] at h0
        exact absurd h0 (by decide)

theorem claim_C2_amended_no_partial_output_witness :
    ((Ndb_split_string_address_port "[badbracket".toList []
        (List.replicate 16 'a') (List.replicate 16 'b')).2.1 =
      List.replicate 16 'a' ∧
     (Ndb_split_string_address_port "[badbracket".toList []
        (List.replicate 16 'a') (List.replicate 16 'b')).2.2 =
      List.replicate 16 'b') ∧
    ((readCStr (Ndb_split_string_address_port "a:b".toList []
        (List.replicate 4 'x') (List.replicate 4 'x')).2.1).length < 4 ∧
     (1 ≤ 4 →
      (readCStr (Ndb_split_string_address_port "a:b".toList []
        (List.replicate 4 'x') (List.replicate 4 'x')).2.2).length < 4)) ∧
    (Ndb_getInAddr6 (some [AddrInfo.v6 3 [9]]) (List.replicate 16 7)).2 =
      List.replicate 16 7 := by
  refine ⟨?_, ?_, ?_⟩
  · exact claim_C2_amended_no_partial_output.1 "[badbracket".toList []
      (List.replicate 16 'a') (List.replicate 16 'b') (by decide)
  · exact claim_C2_amended_no_partial_output.2.1 "a:b".toList []
      (List.replicate 4 'x') (List.replicate 4 'x') (by decide) (by decide)
  · exact claim_C2_amended_no_partial_output.2.2
      (some [AddrInfo.v6 3 [9]]) (List.replicate 16 7) (by decide)
